import Mathlib

/-!
Verification of the geometric containment-and-area engine (rust-geo excerpt).

The coordinate type parameter `T : Float` is modelled by the exact rationals
`ℚ`: every operation under verification branches only on equalities and order
comparisons of coordinates and on exact field arithmetic, so `ℚ` gives the
ideal-arithmetic semantics of the algorithms.

Data model (the `types` module is not part of the given sources; the shapes
are fixed by how `contains.rs` and `area.rs` consume them and by the spec's
data-model section): a point is an (x, y) pair, a line is an ordered pair of
points, a line string is an ordered point sequence, a polygon is an exterior
ring plus hole rings, a multi-polygon is a polygon sequence, and a bounding
box is four scalars.
-/

structure Point where
  x : ℚ
  y : ℚ
deriving DecidableEq, Repr

structure Line where
  start : Point
  stop : Point
deriving DecidableEq, Repr

structure LineString where
  points : List Point
deriving DecidableEq, Repr

structure Polygon where
  exterior : LineString
  interiors : List LineString
deriving DecidableEq, Repr

structure MultiPolygon where
  polygons : List Polygon
deriving DecidableEq, Repr

structure Bbox where
  xmin : ℚ
  xmax : ℚ
  ymin : ℚ
  ymax : ℚ
deriving DecidableEq, Repr

/-- The consecutive-pair view `vect.windows(2)` of a vertex list: the list of
adjacent pairs, empty when the list has fewer than two elements. -/
def windows2 {α : Type} (l : List α) : List (α × α) :=
  l.zip l.tail

/-- The fixed absolute tolerance `COORD_PRECISION` used by tolerance-based
point equality (value `1e-1` in the crate's `types` module). -/
def COORD_PRECISION : ℚ := 1 / 10

/-- Modelled from the spec: `Contains<Point> for Line` delegates to the
external `Intersects` collaborator (`algorithm/intersects.rs`, not among the
given sources). Per the spec's SegmentContainment contract, the point must
lie on the infinite line through the segment (zero cross product) and within
the segment's bounding interval. -/
def lineContainsPoint (l : Line) (p : Point) : Bool :=
  decide ((l.stop.x - l.start.x) * (p.y - l.start.y)
            = (l.stop.y - l.start.y) * (p.x - l.start.x)) &&
  decide (min l.start.x l.stop.x ≤ p.x) &&
  decide (p.x ≤ max l.start.x l.stop.x) &&
  decide (min l.start.y l.stop.y ≤ p.y) &&
  decide (p.y ≤ max l.start.y l.stop.y)

/-- `impl Contains<Line> for Line`: both endpoints of the inner segment lie
on the outer segment. -/
def lineContainsLine (outer : Line) (inner : Line) : Bool :=
  lineContainsPoint outer inner.start && lineContainsPoint outer inner.stop

/-- `impl Contains<LineString> for Line`: every point of the line string lies
on the segment. -/
def lineContainsLineString (l : Line) (ls : LineString) : Bool :=
  ls.points.all (fun pt => lineContainsPoint l pt)

/-- `impl Contains<Point> for LineString`: the point is a vertex (exact
coordinate equality), or some consecutive vertex pair is horizontal at the
point's height with the point's x strictly between the pair's xs, or the
symmetric vertical case. -/
def lineStringContainsPoint (ls : LineString) (p : Point) : Bool :=
  if ls.points.contains p then
    true
  else
    (windows2 ls.points).any (fun ps =>
      (decide (ps.1.y = ps.2.y) && decide (ps.1.y = p.y) &&
       decide (min ps.1.x ps.2.x < p.x) && decide (p.x < max ps.1.x ps.2.x)) ||
      (decide (ps.1.x = ps.2.x) && decide (ps.1.x = p.x) &&
       decide (min ps.1.y ps.2.y < p.y) && decide (p.y < max ps.1.y ps.2.y)))

/-- One iteration of the `Contains<Line> for LineString` loop body, written
as the loop is: the state is the pair (early-return flag, `look_for`), and a
raised flag is carried unchanged to the end of the scan. -/
def lookForStep (line : Line) (st : Bool × Option Point) (w : Point × Point) :
    Bool × Option Point :=
  if st.1 then st
  else
    let segment : Line := ⟨w.1, w.2⟩
    let lf : Option Point :=
      match st.2 with
      | none =>
        if lineContainsPoint segment line.start then some line.stop
        else if lineContainsPoint segment line.stop then some line.start
        else none
      | some q => some q
    match lf with
    | none => (false, none)
    | some q =>
      if lineContainsPoint segment q then (true, some q)
      else if lineContainsPoint line w.2 then (false, some q)
      else (false, none)

/-- `impl Contains<Line> for LineString`: scan the consecutive segments of
the path carrying an optional `look_for` endpoint, as in the source loop. -/
def lineStringContainsLine (ls : LineString) (line : Line) : Bool :=
  ((windows2 ls.points).foldl (lookForStep line) (false, none)).1

/-- The position of a point relative to a ring, as classified by
`get_position`. -/
inductive PositionPoint where
  | OnBoundary
  | Inside
  | Outside
deriving DecidableEq, Repr

/-- One iteration of the ray-casting loop in `get_position`: the state is
the pair of the mutable `xints` (declared outside the loop, so its value
persists across iterations) and the crossing counter. -/
def rayStep (p : Point) (st : ℚ × Nat) (ps : Point × Point) : ℚ × Nat :=
  if min ps.1.y ps.2.y < p.y then
    if p.y ≤ max ps.1.y ps.2.y then
      if p.x ≤ max ps.1.x ps.2.x then
        let xints : ℚ :=
          if ps.1.y ≠ ps.2.y then
            (p.y - ps.1.y) * (ps.2.x - ps.1.x) / (ps.2.y - ps.1.y) + ps.1.x
          else st.1
        if ps.1.x = ps.2.x ∨ p.x ≤ xints then (xints, st.2 + 1)
        else (xints, st.2)
      else st
    else st
  else st

/-- `get_position`: empty ring is Outside; a point on the ring path is
OnBoundary; otherwise ray casting with an odd crossing count is Inside and an
even one is Outside. -/
def get_position (p : Point) (linestring : LineString) : PositionPoint :=
  if linestring.points.isEmpty then PositionPoint.Outside
  else if lineStringContainsPoint linestring p then PositionPoint.OnBoundary
  else
    let st := (windows2 linestring.points).foldl (rayStep p) (0, 0)
    if st.2 % 2 = 1 then PositionPoint.Inside else PositionPoint.Outside

/-- `impl Contains<Point> for Polygon`: OnBoundary or Outside the exterior
ring is not contained; otherwise the point must be Outside every hole. -/
def polygonContainsPoint (poly : Polygon) (p : Point) : Bool :=
  match get_position p poly.exterior with
  | PositionPoint.OnBoundary => false
  | PositionPoint.Outside => false
  | PositionPoint.Inside =>
    poly.interiors.all (fun ls => decide (get_position p ls = PositionPoint.Outside))

/-- `impl Contains<Point> for MultiPolygon`: some member polygon contains the
point. -/
def multiPolygonContainsPoint (mp : MultiPolygon) (p : Point) : Bool :=
  mp.polygons.any (fun poly => polygonContainsPoint poly p)

/-- `impl Contains<Line> for Polygon`, parametric in the external
line-string/segment intersection collaborator `lsInterLine`
(`algorithm/intersects.rs`, not among the given sources): both endpoints are
contained and the segment intersects neither the exterior nor any hole. -/
def polygonContainsLine (lsInterLine : LineString → Line → Bool)
    (poly : Polygon) (line : Line) : Bool :=
  polygonContainsPoint poly line.start &&
  polygonContainsPoint poly line.stop &&
  !(lsInterLine poly.exterior line) &&
  !(poly.interiors.any (fun inner => lsInterLine inner line))

/-- Modelled from the spec: `Intersects<LineString> for Polygon` is the
external collaborator called by `Contains<LineString> for Polygon`
(`algorithm/intersects.rs`, not among the given sources). Per the spec's
PolygonContainment contract the test is against the polygon's boundary: the
exterior ring or any hole ring intersects the path, with the path-to-path
primitive `lsInterLs` itself left external. -/
def polygonIntersectsLineString (lsInterLs : LineString → LineString → Bool)
    (poly : Polygon) (ls : LineString) : Bool :=
  lsInterLs poly.exterior ls || poly.interiors.any (fun h => lsInterLs h ls)

/-- `impl Contains<LineString> for Polygon`: if every vertex of the path is
contained, the path must not intersect the polygon's boundary; otherwise
false. -/
def polygonContainsLineString (lsInterLs : LineString → LineString → Bool)
    (poly : Polygon) (ls : LineString) : Bool :=
  if ls.points.all (fun point => polygonContainsPoint poly point) then
    !(polygonIntersectsLineString lsInterLs poly ls)
  else
    false

/-- `impl Contains<Point> for Bbox`: inclusive bound test on all four
sides. -/
def bboxContainsPoint (b : Bbox) (p : Point) : Bool :=
  decide (p.x ≥ b.xmin) && decide (p.x ≤ b.xmax) &&
  decide (p.y ≥ b.ymin) && decide (p.y ≤ b.ymax)

/-- `impl Contains<Bbox> for Bbox`: the outer bounds enclose the inner
bounds inclusively on all four sides. -/
def bboxContainsBbox (outer : Bbox) (b : Bbox) : Bool :=
  decide (outer.xmin ≤ b.xmin) && decide (outer.xmax ≥ b.xmax) &&
  decide (outer.ymin ≤ b.ymin) && decide (outer.ymax ≥ b.ymax)

/-- `get_linestring_area`: zero for an empty or single-point ring, else the
signed shoelace sum over consecutive vertex pairs divided by two. -/
def get_linestring_area (linestring : LineString) : ℚ :=
  if linestring.points.isEmpty || linestring.points.length == 1 then 0
  else
    ((windows2 linestring.points).foldl
      (fun tmp ps => tmp + (ps.1.x * ps.2.y - ps.2.x * ps.1.y)) 0) / 2

/-- `impl Area for Polygon`: fold over the holes, subtracting each hole's
ring area from the exterior's ring area left to right. -/
def polygonArea (poly : Polygon) : ℚ :=
  poly.interiors.foldl (fun total next => total - get_linestring_area next)
    (get_linestring_area poly.exterior)

/-- `impl Area for MultiPolygon`: fold the member areas left to right from
zero. -/
def multiPolygonArea (mp : MultiPolygon) : ℚ :=
  mp.polygons.foldl (fun total next => total + polygonArea next) 0

/-- `impl Area for Bbox`. -/
def bboxArea (b : Bbox) : ℚ :=
  (b.xmax - b.xmin) * (b.ymax - b.ymin)

/-- The x-coordinate at which the horizontal ray at height `p.y` crosses the
supporting line of the edge (ps0, ps1). -/
def xintsAt (p ps0 ps1 : Point) : ℚ :=
  (p.y - ps0.y) * (ps1.x - ps0.x) / (ps1.y - ps0.y) + ps0.x

/-- Stated from the claim: the per-edge ray-crossing condition of the ring
classifier, with `xints` computed locally for the edge. -/
def crossesEdge (p : Point) (ps : Point × Point) : Bool :=
  decide (min ps.1.y ps.2.y < p.y) && decide (p.y ≤ max ps.1.y ps.2.y) &&
  decide (p.x ≤ max ps.1.x ps.2.x) &&
  (decide (ps.1.x = ps.2.x) || decide (p.x ≤ xintsAt p ps.1 ps.2))

/-- Stated from the claim: the number of consecutive vertex pairs of the ring
satisfying the ray-crossing condition. -/
def crossingCount (p : Point) (ls : LineString) : Nat :=
  ((windows2 ls.points).filter (crossesEdge p)).length

/-- Stated from the claim: the left-to-right scan of the path's consecutive
segments carrying an optional look-for point, initially none; with no active
look-for point, a path segment containing one query endpoint activates the
other endpoint as the look-for point; with an active look-for point (possibly
just set), the scan returns true when the current path segment contains it
and otherwise drops the look-for point when the query segment does not
contain the current path segment's far endpoint; a completed scan yields
false. -/
def lookForScanSpec (line : Line) : Option Point → List (Point × Point) → Bool
  | _, [] => false
  | lookFor, ps :: rest =>
    let segment : Line := ⟨ps.1, ps.2⟩
    let lf : Option Point :=
      match lookFor with
      | none =>
        if lineContainsPoint segment line.start then some line.stop
        else if lineContainsPoint segment line.stop then some line.start
        else none
      | some q => some q
    match lf with
    | none => lookForScanSpec line none rest
    | some q =>
      if lineContainsPoint segment q then true
      else if lineContainsPoint line ps.2 then lookForScanSpec line (some q) rest
      else lookForScanSpec line none rest

/-- `ToPrimitive::to_f32` as invoked by `Contains<Point> for Point` on the
float coordinate types: the conversion always succeeds, so the `unwrap`
cannot fail; the fallible conversion is modelled as an `Option`. -/
def to_f32 (q : ℚ) : Option ℚ := some q

/-- Modelled from the spec: `Contains<Point> for Point` compares the external
Euclidean distance collaborator's result (`algorithm/distance.rs`, not among
the given sources) against `COORD_PRECISION`; over exact arithmetic, distance
below the tolerance is equivalent to squared distance below the squared
tolerance, both sides being nonnegative. -/
def pointContainsPoint (a p : Point) : Option Bool :=
  (to_f32 ((a.x - p.x) ^ 2 + (a.y - p.y) ^ 2)).map
    (fun d2 => decide (d2 < COORD_PRECISION ^ 2))

/-- The public `Contains` surface: one constructor per supported
implementation pair, applied to its input. -/
inductive ContainsOp where
  | pointPoint (a b : Point)
  | lineStringPoint (ls : LineString) (p : Point)
  | linePoint (l : Line) (p : Point)
  | lineLine (outer inner : Line)
  | lineLineString (l : Line) (ls : LineString)
  | lineStringLine (ls : LineString) (l : Line)
  | polygonPoint (poly : Polygon) (p : Point)
  | multiPolygonPoint (mp : MultiPolygon) (p : Point)
  | polygonLine (poly : Polygon) (l : Line)
  | polygonLineString (poly : Polygon) (ls : LineString)
  | bboxPoint (b : Bbox) (p : Point)
  | bboxBbox (outer inner : Bbox)

/-- The concrete `Area` implementations, applied to their input. -/
inductive AreaOp where
  | polygon (poly : Polygon)
  | multiPolygon (mp : MultiPolygon)
  | bbox (b : Bbox)

/-- Evaluate a `Contains` operation, parametric in the two external
intersection collaborators; a failure (panic) would surface as `none`. -/
def evalContains (lsInterLine : LineString → Line → Bool)
    (lsInterLs : LineString → LineString → Bool) : ContainsOp → Option Bool
  | ContainsOp.pointPoint a b => pointContainsPoint a b
  | ContainsOp.lineStringPoint ls p => some (lineStringContainsPoint ls p)
  | ContainsOp.linePoint l p => some (lineContainsPoint l p)
  | ContainsOp.lineLine outer inner => some (lineContainsLine outer inner)
  | ContainsOp.lineLineString l ls => some (lineContainsLineString l ls)
  | ContainsOp.lineStringLine ls l => some (lineStringContainsLine ls l)
  | ContainsOp.polygonPoint poly p => some (polygonContainsPoint poly p)
  | ContainsOp.multiPolygonPoint mp p => some (multiPolygonContainsPoint mp p)
  | ContainsOp.polygonLine poly l => some (polygonContainsLine lsInterLine poly l)
  | ContainsOp.polygonLineString poly ls =>
      some (polygonContainsLineString lsInterLs poly ls)
  | ContainsOp.bboxPoint b p => some (bboxContainsPoint b p)
  | ContainsOp.bboxBbox outer inner => some (bboxContainsBbox outer inner)

/-- Evaluate a concrete `Area` operation; a failure (panic) would surface as
`none`. -/
def evalArea : AreaOp → Option ℚ
  | AreaOp.polygon poly => some (polygonArea poly)
  | AreaOp.multiPolygon mp => some (multiPolygonArea mp)
  | AreaOp.bbox b => some (bboxArea b)

/-- The blanket `impl Area for G: PolygonTrait` (the generic extensibility
hook over a ring iterator): its body is `unimplemented!()`, which panics for
every input; the panic is modelled as `Option` failure. -/
def polygonTraitArea (_rings : List LineString) : Option ℚ := none

/-! Helper lemmas on folds. -/

theorem foldl_add_eq_sum {α : Type} (f : α → ℚ) (l : List α) (c : ℚ) :
    l.foldl (fun t x => t + f x) c = c + (l.map f).sum := by
  induction l generalizing c with
  | nil => simp
  | cons a t ih => simp [ih, add_assoc]

theorem foldl_sub_eq_sub_sum {α : Type} (f : α → ℚ) (l : List α) (c : ℚ) :
    l.foldl (fun t x => t - f x) c = c - (l.map f).sum := by
  induction l generalizing c with
  | nil => simp
  | cons a t ih => simp [ih, sub_sub]

/-- A path containing a point is nonempty. -/
theorem lineStringContainsPoint_ne_nil {ls : LineString} {p : Point}
    (h : lineStringContainsPoint ls p = true) : ls.points ≠ [] := by
  intro hnil
  simp [lineStringContainsPoint, hnil, windows2] at h

/-- C1: a polygon contains a point iff the point classifies as Inside
against the exterior ring and as Outside against every hole ring. -/
theorem polygonContainsPoint_correct (poly : Polygon) (p : Point) :
    polygonContainsPoint poly p = true ↔
      (get_position p poly.exterior = PositionPoint.Inside ∧
       ∀ ls ∈ poly.interiors, get_position p ls = PositionPoint.Outside) := by
  unfold polygonContainsPoint
  cases h : get_position p poly.exterior <;> simp [h, List.all_eq_true]

/-- C4: a path contains a point iff the point coordinate-equals a vertex, or
some consecutive vertex pair is horizontal at the point's height with the
point's x strictly between the pair's xs, or vertical with the symmetric
condition; the empty path contains no point. -/
theorem pathBoundary_correct (ls : LineString) (p : Point) :
    (lineStringContainsPoint ls p = true ↔
      p ∈ ls.points ∨
      ∃ ps ∈ windows2 ls.points,
        (ps.1.y = ps.2.y ∧ p.y = ps.1.y ∧
         min ps.1.x ps.2.x < p.x ∧ p.x < max ps.1.x ps.2.x) ∨
        (ps.1.x = ps.2.x ∧ p.x = ps.1.x ∧
         min ps.1.y ps.2.y < p.y ∧ p.y < max ps.1.y ps.2.y)) ∧
    (ls.points = [] → lineStringContainsPoint ls p = false) := by
  constructor
  · unfold lineStringContainsPoint
    by_cases hc : p ∈ ls.points
    · simp [hc]
    · have hc' : ls.points.contains p = false := by
        rw [Bool.eq_false_iff]
        intro hcontra
        exact hc (List.elem_iff.mp hcontra)
      simp only [hc, hc', if_false, Bool.false_eq_true, List.any_eq_true,
        Bool.or_eq_true, Bool.and_eq_true, decide_eq_true_eq, false_or]
      constructor
      · rintro ⟨ps, hmem, hcond⟩
        refine ⟨ps, hmem, ?_⟩
        rcases hcond with ⟨⟨⟨h1, h2⟩, h3⟩, h4⟩ | ⟨⟨⟨h1, h2⟩, h3⟩, h4⟩
        · exact Or.inl ⟨h1, h2.symm, h3, h4⟩
        · exact Or.inr ⟨h1, h2.symm, h3, h4⟩
      · rintro ⟨ps, hmem, hcond⟩
        refine ⟨ps, hmem, ?_⟩
        rcases hcond with ⟨h1, h2, h3, h4⟩ | ⟨h1, h2, h3, h4⟩
        · exact Or.inl ⟨⟨⟨h1, h2.symm⟩, h3⟩, h4⟩
        · exact Or.inr ⟨⟨⟨h1, h2.symm⟩, h3⟩, h4⟩
  · intro hnil
    simp [lineStringContainsPoint, hnil, windows2]

/-- C4 witness: the empty path contains no point. -/
theorem pathBoundary_correct_witness :
    lineStringContainsPoint ⟨[]⟩ ⟨0, 0⟩ = false :=
  (pathBoundary_correct ⟨[]⟩ ⟨0, 0⟩).2 rfl

/-- C5: ring area is zero for rings with at most one vertex and otherwise is
the shoelace sum over consecutive vertex pairs divided by two; a polygon's
area is the exterior's ring area minus the ring area of each hole. -/
theorem area_correct :
    (∀ ls : LineString, ls.points.length ≤ 1 → get_linestring_area ls = 0) ∧
    (∀ ls : LineString, 2 ≤ ls.points.length →
      get_linestring_area ls =
        ((windows2 ls.points).map
          (fun ps => ps.1.x * ps.2.y - ps.2.x * ps.1.y)).sum / 2) ∧
    (∀ poly : Polygon,
      polygonArea poly =
        get_linestring_area poly.exterior -
          (poly.interiors.map get_linestring_area).sum) := by
  refine ⟨?_, ?_, ?_⟩
  · intro ls hlen
    unfold get_linestring_area
    match hl : ls.points with
    | [] => simp [hl]
    | [a] => simp [hl]
    | a :: b :: t => rw [hl] at hlen; simp at hlen
  · intro ls hlen
    unfold get_linestring_area
    have h0 : ls.points.isEmpty = false := by
      cases hl : ls.points with
      | nil => rw [hl] at hlen; simp at hlen
      | cons a t => simp
    have h1 : (ls.points.length == 1) = false := by
      rcases Nat.eq_or_lt_of_le hlen with h | h
      · simp [← h]
      · simp; omega
    rw [h0, h1]
    simp [foldl_add_eq_sum]
  · intro poly
    unfold polygonArea
    exact foldl_sub_eq_sub_sum get_linestring_area poly.interiors _

/-- C5 witness: the empty ring has area zero, and the 5-by-6 rectangle's
shoelace sum halves to its area. -/
theorem area_correct_witness :
    get_linestring_area ⟨[]⟩ = 0 ∧
    get_linestring_area ⟨[⟨0, 0⟩, ⟨5, 0⟩, ⟨5, 6⟩, ⟨0, 6⟩, ⟨0, 0⟩]⟩ =
      ((windows2 [⟨0, 0⟩, ⟨5, 0⟩, ⟨5, 6⟩, ⟨0, 6⟩, (⟨0, 0⟩ : Point)]).map
        (fun ps => ps.1.x * ps.2.y - ps.2.x * ps.1.y)).sum / 2 :=
  ⟨area_correct.1 ⟨[]⟩ (by decide),
   area_correct.2.1 ⟨[⟨0, 0⟩, ⟨5, 0⟩, ⟨5, 6⟩, ⟨0, 6⟩, ⟨0, 0⟩]⟩ (by decide)⟩

/-- C8: box-point containment is the inclusive bound test on all four sides;
box-in-box containment is reflexive and holds for a box sharing exactly the
outer box's bounds. -/
theorem bbox_correct :
    (∀ (b : Bbox) (p : Point),
      bboxContainsPoint b p = true ↔
        b.xmin ≤ p.x ∧ p.x ≤ b.xmax ∧ b.ymin ≤ p.y ∧ p.y ≤ b.ymax) ∧
    (∀ b : Bbox, bboxContainsBbox b b = true) ∧
    (∀ b c : Bbox, b.xmin = c.xmin → b.xmax = c.xmax → b.ymin = c.ymin →
      b.ymax = c.ymax → bboxContainsBbox b c = true) := by
  refine ⟨?_, ?_, ?_⟩
  · intro b p
    simp [bboxContainsPoint, and_assoc]
  · intro b
    simp [bboxContainsBbox]
  · intro b c h1 h2 h3 h4
    simp [bboxContainsBbox, h1, h2, h3, h4]

/-- C8 witness: the unit box contains a box sharing exactly its bounds. -/
theorem bbox_correct_witness :
    bboxContainsBbox ⟨0, 1, 0, 1⟩ ⟨0, 1, 0, 1⟩ = true :=
  bbox_correct.2.2 ⟨0, 1, 0, 1⟩ ⟨0, 1, 0, 1⟩ rfl rfl rfl rfl

/-- C9: the area of a polygon collection is the sum of the member areas, and
the empty collection has area zero. -/
theorem multiPolygonArea_additive :
    (∀ mp : MultiPolygon,
      multiPolygonArea mp = (mp.polygons.map polygonArea).sum) ∧
    multiPolygonArea ⟨[]⟩ = 0 := by
  constructor
  · intro mp
    unfold multiPolygonArea
    simp [foldl_add_eq_sum]
  · rfl

/-- The per-edge crossing condition, unfolded to a proposition. -/
theorem crossesEdge_iff (p : Point) (ps : Point × Point) :
    crossesEdge p ps = true ↔
      (min ps.1.y ps.2.y < p.y ∧ p.y ≤ max ps.1.y ps.2.y ∧
       p.x ≤ max ps.1.x ps.2.x ∧
       (ps.1.x = ps.2.x ∨ p.x ≤ xintsAt p ps.1 ps.2)) := by
  simp [crossesEdge, and_assoc]

/-- An edge whose y-interval admits the ray is not horizontal. -/
theorem ray_edge_not_horizontal {p : Point} {ps : Point × Point}
    (h1 : min ps.1.y ps.2.y < p.y) (h2 : p.y ≤ max ps.1.y ps.2.y) :
    ps.1.y ≠ ps.2.y := by
  intro he
  rw [he, min_self] at h1
  rw [he, max_self] at h2
  exact absurd h2 (not_le.mpr h1)

/-- When all the guards hold, a ray-casting step stores the freshly computed
crossing x-coordinate and counts the edge iff the crossing condition holds. -/
theorem rayStep_eq_of_guards (p : Point) (st : ℚ × Nat) (ps : Point × Point)
    (h1 : min ps.1.y ps.2.y < p.y) (h2 : p.y ≤ max ps.1.y ps.2.y)
    (h3 : p.x ≤ max ps.1.x ps.2.x) :
    rayStep p st ps =
      (xintsAt p ps.1 ps.2,
       if ps.1.x = ps.2.x ∨ p.x ≤ xintsAt p ps.1 ps.2 then st.2 + 1 else st.2) := by
  have hy : ps.1.y ≠ ps.2.y := ray_edge_not_horizontal h1 h2
  by_cases h4 : ps.1.x = ps.2.x ∨ p.x ≤ xintsAt p ps.1 ps.2
  · simp only [xintsAt] at h4 ⊢
    simp [rayStep, h1, h2, h3, hy, h4]
  · simp only [xintsAt] at h4 ⊢
    simp [rayStep, h1, h2, h3, hy, h4]

/-- When one of the guards fails, a ray-casting step leaves the state
unchanged. -/
theorem rayStep_eq_of_not_guards (p : Point) (st : ℚ × Nat) (ps : Point × Point)
    (h : ¬(min ps.1.y ps.2.y < p.y ∧ p.y ≤ max ps.1.y ps.2.y ∧
           p.x ≤ max ps.1.x ps.2.x)) :
    rayStep p st ps = st := by
  by_cases h1 : min ps.1.y ps.2.y < p.y
  · by_cases h2 : p.y ≤ max ps.1.y ps.2.y
    · by_cases h3 : p.x ≤ max ps.1.x ps.2.x
      · exact absurd ⟨h1, h2, h3⟩ h
      · simp [rayStep, h1, h2, h3]
    · simp [rayStep, h1, h2]
  · simp [rayStep, h1]

/-- The stateful ray-casting fold counts exactly the edges satisfying the
per-edge crossing condition: the carried `xints` never influences the count,
because an edge entering the guarded region is never horizontal and so
always refreshes `xints` before testing it. -/
theorem rayStep_count (p : Point) (l : List (Point × Point)) :
    ∀ x c, (l.foldl (rayStep p) (x, c)).2 = c + (l.filter (crossesEdge p)).length := by
  induction l with
  | nil => intro x c; simp
  | cons ps rest ih =>
    intro x c
    rw [List.foldl_cons, List.filter_cons]
    by_cases hg : min ps.1.y ps.2.y < p.y ∧ p.y ≤ max ps.1.y ps.2.y ∧
        p.x ≤ max ps.1.x ps.2.x
    · obtain ⟨h1, h2, h3⟩ := hg
      rw [rayStep_eq_of_guards p (x, c) ps h1 h2 h3]
      by_cases h4 : ps.1.x = ps.2.x ∨ p.x ≤ xintsAt p ps.1 ps.2
      · have hedge : crossesEdge p ps = true :=
          (crossesEdge_iff p ps).mpr ⟨h1, h2, h3, h4⟩
        rw [if_pos h4, hedge, ih]
        simp
        omega
      · have hedge : crossesEdge p ps = false := by
          rw [Bool.eq_false_iff]
          intro hc
          exact h4 ((crossesEdge_iff p ps).mp hc).2.2.2
        rw [if_neg h4, hedge, ih]
        simp
    · rw [rayStep_eq_of_not_guards p (x, c) ps hg]
      have hedge : crossesEdge p ps = false := by
        rw [Bool.eq_false_iff]
        intro hc
        rcases (crossesEdge_iff p ps).mp hc with ⟨a, b, c', _⟩
        exact hg ⟨a, b, c'⟩
      rw [hedge, ih]
      simp

/-- C2: the ring classifier returns Outside for the empty ring, OnBoundary
when the path-boundary test holds, and otherwise Inside exactly when the
number of consecutive vertex pairs satisfying the ray-crossing condition is
odd and Outside exactly when it is even. -/
theorem ringClassifier_correct (p : Point) (R : LineString) :
    (R.points = [] → get_position p R = PositionPoint.Outside) ∧
    (R.points ≠ [] → lineStringContainsPoint R p = true →
      get_position p R = PositionPoint.OnBoundary) ∧
    (R.points ≠ [] → lineStringContainsPoint R p = false →
      ((get_position p R = PositionPoint.Inside ↔ Odd (crossingCount p R)) ∧
       (get_position p R = PositionPoint.Outside ↔ Even (crossingCount p R)))) := by
  refine ⟨?_, ?_, ?_⟩
  · intro h
    simp [get_position, h]
  · intro hne hon
    have hie : R.points.isEmpty = false := by
      cases hl : R.points with
      | nil => exact absurd hl hne
      | cons a t => simp
    simp [get_position, hie, hon]
  · intro hne hoff
    have hie : R.points.isEmpty = false := by
      cases hl : R.points with
      | nil => exact absurd hl hne
      | cons a t => simp
    have hcount : ((windows2 R.points).foldl (rayStep p) (0, 0)).2 =
        crossingCount p R := by
      rw [rayStep_count]
      simp [crossingCount]
    unfold get_position
    rw [hie]
    simp only [Bool.false_eq_true, if_false, hoff]
    rw [hcount]
    by_cases hodd : crossingCount p R % 2 = 1
    · have ho : Odd (crossingCount p R) := Nat.odd_iff.mpr hodd
      have hnev : ¬ Even (crossingCount p R) := by
        rw [Nat.even_iff]
        omega
      simp [hodd, ho, hnev]
    · have hev : Even (crossingCount p R) := by
        rw [Nat.even_iff]
        omega
      have hno : ¬ Odd (crossingCount p R) := by
        rw [Nat.odd_iff]
        omega
      simp [hodd, hev, hno]

/-- C2 witness: the centre of the unit-radius axis square is classified
Inside, with an odd (single) crossing count. -/
theorem ringClassifier_correct_witness :
    get_position ⟨1, 1⟩ ⟨[⟨0, 0⟩, ⟨2, 0⟩, ⟨2, 2⟩, ⟨0, 2⟩, ⟨0, 0⟩]⟩ =
      PositionPoint.Inside :=
  ((ringClassifier_correct ⟨1, 1⟩ ⟨[⟨0, 0⟩, ⟨2, 0⟩, ⟨2, 2⟩, ⟨0, 2⟩, ⟨0, 0⟩]⟩).2.2
    (by decide) (by decide)).1.mpr (by decide)

/-- Once the early-return flag is raised, the rest of the scan carries it
unchanged. -/
theorem lookForStep_done (line : Line) (l : List (Point × Point)) :
    ∀ lf, (l.foldl (lookForStep line) (true, lf)).1 = true := by
  induction l with
  | nil => intro lf; rfl
  | cons ps rest ih =>
    intro lf
    rw [List.foldl_cons]
    have hstep : lookForStep line (true, lf) ps = (true, lf) := by
      simp [lookForStep]
    rw [hstep]
    exact ih lf

/-- The flagged fold of the source loop computes the recursive scan of the
claim, from any look-for state. -/
theorem lookForScan_eq_foldl (line : Line) (l : List (Point × Point)) :
    ∀ lf, lookForScanSpec line lf l = (l.foldl (lookForStep line) (false, lf)).1 := by
  induction l with
  | nil => intro lf; rfl
  | cons ps rest ih =>
    intro lf
    rw [List.foldl_cons]
    cases lf with
    | none =>
      by_cases h0 : lineContainsPoint ⟨ps.1, ps.2⟩ line.start = true
      · by_cases hq : lineContainsPoint ⟨ps.1, ps.2⟩ line.stop = true
        · simp [lookForScanSpec, lookForStep, h0, hq, lookForStep_done]
        · by_cases hfar : lineContainsPoint line ps.2 = true
          · simp [lookForScanSpec, lookForStep, h0, hq, hfar, ih]
          · simp [lookForScanSpec, lookForStep, h0, hq, hfar, ih]
      · by_cases h1 : lineContainsPoint ⟨ps.1, ps.2⟩ line.stop = true
        · by_cases hq : lineContainsPoint ⟨ps.1, ps.2⟩ line.start = true
          · exact absurd hq h0
          · by_cases hfar : lineContainsPoint line ps.2 = true
            · simp [lookForScanSpec, lookForStep, h0, h1, hq, hfar, ih]
            · simp [lookForScanSpec, lookForStep, h0, h1, hq, hfar, ih]
        · simp [lookForScanSpec, lookForStep, h0, h1, ih]
    | some q =>
      by_cases hq : lineContainsPoint ⟨ps.1, ps.2⟩ q = true
      · simp [lookForScanSpec, lookForStep, hq, lookForStep_done]
      · by_cases hfar : lineContainsPoint line ps.2 = true
        · simp [lookForScanSpec, lookForStep, hq, hfar, ih]
        · simp [lookForScanSpec, lookForStep, hq, hfar, ih]

/-- C3: the segment-in-path test equals the claim's left-to-right scan of the
path's consecutive segments carrying an optional look-for point. -/
theorem pathContainsSegment_scan (ls : LineString) (line : Line) :
    lineStringContainsLine ls line = lookForScanSpec line none (windows2 ls.points) :=
  (lookForScan_eq_foldl line (windows2 ls.points) none).symm

/-- C10: on a two-vertex path the segment-in-path test coincides with
segment-in-segment containment by the single path segment: it holds iff that
segment contains both query endpoints. -/
theorem twoVertexPath_refines_segment (a b : Point) (line : Line) :
    lineStringContainsLine ⟨[a, b]⟩ line = lineContainsLine ⟨a, b⟩ line ∧
    (lineStringContainsLine ⟨[a, b]⟩ line = true ↔
      lineContainsPoint ⟨a, b⟩ line.start = true ∧
      lineContainsPoint ⟨a, b⟩ line.stop = true) := by
  have hw : windows2 [a, b] = [(a, b)] := rfl
  have hmain : lineStringContainsLine ⟨[a, b]⟩ line = lineContainsLine ⟨a, b⟩ line := by
    unfold lineStringContainsLine
    rw [hw]
    cases h0 : lineContainsPoint ⟨a, b⟩ line.start <;>
      cases h1 : lineContainsPoint ⟨a, b⟩ line.stop <;>
        simp [lookForStep, lineContainsLine, h0, h1] <;>
          cases hfar : lineContainsPoint line b <;> simp [hfar]
  refine ⟨hmain, ?_⟩
  rw [hmain]
  simp [lineContainsLine]

/-- C7: a polygon contains a path iff every vertex of the path is contained
as a point and the path intersects neither the exterior ring nor any hole
ring; a nonempty path all of whose vertices lie on the exterior ring's path
is never contained. -/
theorem polygonContainsPath_correct (lsInterLs : LineString → LineString → Bool)
    (poly : Polygon) (L : LineString) :
    (polygonContainsLineString lsInterLs poly L = true ↔
      ((∀ v ∈ L.points, polygonContainsPoint poly v = true) ∧
       ¬(lsInterLs poly.exterior L = true ∨
         ∃ h ∈ poly.interiors, lsInterLs h L = true))) ∧
    (L.points ≠ [] →
      (∀ v ∈ L.points, lineStringContainsPoint poly.exterior v = true) →
      polygonContainsLineString lsInterLs poly L = false) := by
  constructor
  · by_cases hall : L.points.all (fun point => polygonContainsPoint poly point) = true
    · have h1 : ∀ v ∈ L.points, polygonContainsPoint poly v = true := by
        rw [List.all_eq_true] at hall
        intro v hv
        exact hall v hv
      simp [polygonContainsLineString, hall, polygonIntersectsLineString,
        List.any_eq_true, not_or]
      intro _ _
      exact h1
    · have hallf : L.points.all (fun point => polygonContainsPoint poly point) = false :=
        Bool.eq_false_iff.mpr hall
      have hne2 : ¬ ∀ v ∈ L.points, polygonContainsPoint poly v = true := by
        intro hc
        exact hall (List.all_eq_true.mpr hc)
      simp [polygonContainsLineString, hallf, hne2]
  · intro hne hall
    cases hl : L.points with
    | nil => exact absurd hl hne
    | cons a t =>
      have hv : lineStringContainsPoint poly.exterior a = true := by
        apply hall
        rw [hl]
        exact List.mem_cons_self a t
      have hie : poly.exterior.points.isEmpty = false := by
        have hne3 := lineStringContainsPoint_ne_nil hv
        cases hle : poly.exterior.points with
        | nil => exact absurd hle hne3
        | cons _ _ => simp
      have hOn : get_position a poly.exterior = PositionPoint.OnBoundary := by
        simp [get_position, hie, hv]
      have hfalse : polygonContainsPoint poly a = false := by
        simp [polygonContainsPoint, hOn]
      have hallf : L.points.all (fun point => polygonContainsPoint poly point) = false := by
        rw [Bool.eq_false_iff]
        intro hc
        rw [List.all_eq_true] at hc
        have hca := hc a (by rw [hl]; exact List.mem_cons_self a t)
        rw [hfalse] at hca
        exact Bool.false_ne_true hca
      simp [polygonContainsLineString, hallf]

/-- C7 witness: the axis square does not contain the one-vertex path sitting
on its bottom edge, whatever the external intersection collaborator says. -/
theorem polygonContainsPath_correct_witness :
    polygonContainsLineString (fun _ _ => false)
      ⟨⟨[⟨0, 0⟩, ⟨2, 0⟩, ⟨2, 2⟩, ⟨0, 2⟩, ⟨0, 0⟩]⟩, []⟩ ⟨[⟨1, 0⟩]⟩ = false :=
  (polygonContainsPath_correct (fun _ _ => false)
      ⟨⟨[⟨0, 0⟩, ⟨2, 0⟩, ⟨2, 2⟩, ⟨0, 2⟩, ⟨0, 0⟩]⟩, []⟩ ⟨[⟨1, 0⟩]⟩).2
    (by decide) (by decide)

/-- C6 (amended): every supported `Contains` pair and each concrete `Area`
implementation evaluates to a defined result on every input, including
degenerate geometries, for any behaviour of the external intersection
collaborators. -/
theorem operations_total (lsInterLine : LineString → Line → Bool)
    (lsInterLs : LineString → LineString → Bool) (cop : ContainsOp) (aop : AreaOp) :
    (evalContains lsInterLine lsInterLs cop).isSome = true ∧
    (evalArea aop).isSome = true := by
  constructor
  · cases cop <;> simp [evalContains, pointContainsPoint, to_f32]
  · cases aop <;> rfl

/-- C6 counterexample: the blanket `Area` implementation for the generic
polygon-trait hook signals failure (its body panics) even on a well-formed
concrete input, so not every area implementation is total. -/
theorem polygonTraitArea_fails :
    (polygonTraitArea [LineString.mk [⟨0, 0⟩, ⟨1, 0⟩, ⟨1, 1⟩, ⟨0, 0⟩]]).isSome
      = false :=
  rfl
